import Mathlib

/-!
Shallow embedding of the build-size computation engine of `build-sizes`
(`src/index.js`): recursive file cataloguing (`getFiles`), extension
filtering (`filterFilesByType`), main-bundle selection and report assembly
(`getBuildSizes`), and CSV persistence (`saveBuildSizes`).

File-system effects, the platform, the compression sizers and the `du`
subprocess are passed in explicitly; errors and `process.exit` are made
visible through an `Outcome` type.
-/

set_option autoImplicit false

/-- A file record as produced by `getFiles` (src/index.js lines 58-63):
`{ name, path, size }` with `size` the non-negative byte size from `stat`. -/
structure JsFile where
  name : String
  path : String
  size : Nat
  deriving Repr, DecidableEq

mutual
/-- A directory tree given to `readdir` traversal: each entry is either a
regular file (with its `stat` size) or a subdirectory with its own entries.
(The entry sequence is its own inductive, mutual with `Entry`, so that
recursion over the tree stays structural.) -/
inductive Entry where
  | file (name : String) (size : Nat)
  | dir (name : String) (entries : EntryList)
  deriving Repr
/-- A sequence of directory entries; `readdir`'s dirent order is the list
order. -/
inductive EntryList where
  | nil
  | cons (head : Entry) (tail : EntryList)
  deriving Repr
end

/-- Models Node's `resolve(directoryPath, name)` for a plain (relative,
slash-free) entry name: join with a path separator. -/
def resolveChild (dir name : String) : String := dir ++ "/" ++ name

mutual
/-- The body of the `getFiles` loop (src/index.js lines 58-72): a
non-directory entry is recorded with its resolved path and `stat` size; a
directory entry contributes the recursive catalog of its subtree, spread
in place. -/
def entryFiles (dirPath : String) : Entry → List JsFile
  | .file name size =>
      [{ name := name, path := resolveChild dirPath name, size := size }]
  | .dir name entries => getFiles (resolveChild dirPath name) entries
/-- Embeds `getFiles` (src/index.js lines 53-74), success path: walk the
entries in `readdir` order, concatenating what each contributes. -/
def getFiles (dirPath : String) : EntryList → List JsFile
  | .nil => []
  | .cons item rest => entryFiles dirPath item ++ getFiles dirPath rest
end

mutual
/-- Number of regular files a single entry contributes. -/
def countEntry : Entry → Nat
  | .file _ _ => 1
  | .dir _ entries => countFiles entries
/-- Number of regular (non-directory) files across all nesting levels of a
directory tree. -/
def countFiles : EntryList → Nat
  | .nil => 0
  | .cons item rest => countEntry item + countFiles rest
end

mutual
/-- Byte size a single entry contributes. -/
def sumEntry : Entry → Nat
  | .file _ size => size
  | .dir _ entries => sumSizes entries
/-- Sum of the byte sizes of all regular files across all nesting levels of
a directory tree. -/
def sumSizes : EntryList → Nat
  | .nil => 0
  | .cons item rest => sumEntry item + sumSizes rest
end

/-- A string's characters, lower-cased; the receiving end of the regex
`"i"` flag's case-insensitive comparison. -/
def lowerChars (s : String) : List Char := s.toList.map Char.toLower

/-- Embeds the predicate `new RegExp("." + type + "$", "i").test(name)`
(src/index.js line 101) for type strings made of plain (non-metacharacter,
ASCII) characters: the UNESCAPED `.` matches any single character, `$`
anchors the match at the end of the name, and the `"i"` flag compares
case-insensitively.  So the test holds iff the name is at least one
character longer than the type and its trailing `type.length` characters
equal the type up to case. -/
def regexDotTypeTest (type name : String) : Bool :=
  let t := lowerChars type
  let n := lowerChars name
  decide (t.length + 1 ≤ n.length) && (n.drop (n.length - t.length) == t)

/-- Embeds `filterFilesByType` (src/index.js lines 100-101). -/
def filterFilesByType (files : List JsFile) (type : String) : List JsFile :=
  files.filter (fun file => regexDotTypeTest type file.name)

/-- The spec's wording of the TypeFilter match ("the file name ends with a
case-insensitive match of `.` + type", with a LITERAL dot): the name's
trailing `type.length + 1` characters are `"." ++ type` up to case.  Kept
separate from `regexDotTypeTest`, which embeds the source's regex. -/
def endsWithDotType (type name : String) : Bool :=
  let t := '.' :: lowerChars type
  let n := lowerChars name
  n.drop (n.length - t.length) == t

/-- Embeds the main-bundle selection (src/index.js lines 159-163):
`filteredBuildFiles.length ? filteredBuildFiles.reduce((max, file) =>
max.size > file.size ? max : file) : null`.  JavaScript `reduce` without an
initial value on a non-empty array is a left fold seeded with the first
element. -/
def selectMax (files : List JsFile) : Option JsFile :=
  match files with
  | [] => none
  | f :: fs => some (fs.foldl (fun max file => if max.size > file.size then max else file) f)

/-- Result of running a piece of the program: a normal value, a thrown
exception propagating to the caller, or a `process.exit` (stderr messages
printed, process terminated with the given code). -/
inductive Outcome (α : Type) where
  | ok (value : α)
  | thrown (err : String)
  | exited (stderr : List String) (code : Nat)
  deriving Repr

/-- The documentation hint printed by `help` after the caller-supplied
messages (src/index.js lines 281-283). -/
def helpHint : String :=
  "\nAdd the -h or --help flag for usage information when on the CLI.\n\nRead the documentation for assistance with the exported functions:\n  https://benelan.github.io/build-sizes/global.html\n"

/-- Embeds `help` (src/index.js lines 279-285): print the messages and the
hint to stderr, then `process.exit(1)`.  It never returns, so its result
type is arbitrary. -/
def help {α : Type} (messages : List String) : Outcome α :=
  .exited (messages ++ [helpHint]) 1

/-- Status of the root directory handed to `readdir`: readable with the
given entries, missing (`ENOENT`), or failing with some other error. -/
inductive FsDir where
  | present (entries : EntryList)
  | enoent
  | otherError (err : String)
  deriving Repr

/-- Embeds `getFiles` (src/index.js lines 53-90) including its `try/catch`:
when the root `readdir` succeeds the subtree is catalogued by `getFiles`
(the model assumes the subtree itself readable); when it fails with
`ENOENT` the catch calls `help` with the not-found message and the path;
any other error calls `help` with the generic message. -/
def getFilesAt (root : FsDir) (directoryPath : String) : Outcome (List JsFile) :=
  match root with
  | .present entries => .ok (getFiles directoryPath entries)
  | .enoent =>
      help ["Error: Could not find build at specified path:\n   ", directoryPath]
  | .otherError err =>
      help [err, "\n\nOccurred while finding build files.",
        "Double check the file path:\n   ", directoryPath]

/-- Result of `execBash` (promisified `child_process.exec`): a resolved
promise carrying the command's stdout, or a rejection when the subprocess
exits non-zero. -/
inductive ExecResult where
  | success (stdout : String)
  | failure (err : String)
  deriving Repr

/-- The whitespace stripped by `String.prototype.trim()` (restricted to
the ASCII whitespace `du` output can carry). -/
def jsWhitespace (c : Char) : Bool :=
  c == ' ' || c == '\t' || c == '\n' || c == '\r'

/-- `s.trim()` on the character list: strip leading and trailing
whitespace. -/
def trimChars (l : List Char) : List Char :=
  ((l.dropWhile jsWhitespace).reverse.dropWhile jsWhitespace).reverse

/-- Numeric value of a digit string, most significant first. -/
def digitsVal (l : List Char) : Nat :=
  l.foldl (fun acc c => acc * 10 + (c.toNat - 48)) 0

/-- Embeds `Number(stdout.trim())` (src/index.js line 183), restricted to
the strings relevant to `du -sb` output: after trimming, the empty string
coerces to `0`, a non-empty string of decimal digits to that integer, and
anything else to `NaN`.  `NaN` is represented as `none`. -/
def jsNumber (s : String) : Option Int :=
  let t := trimChars s.toList
  if t.isEmpty then some 0
  else if t.all Char.isDigit then some ((digitsVal t : Nat) : Int)
  else none

/-- Embeds the template literal `` `du -sb ${build} | cut -f1` ``
(src/index.js line 183): direct interpolation of the resolved build path,
with no quoting or escaping. -/
def buildDuCommand (build : String) : String :=
  "du -sb " ++ build ++ " | cut -f1"

/-- The report returned by `getBuildSizes` (src/index.js lines 188-196).
`buildSizeOnDisk` is a JavaScript number that may be `NaN` (on Windows),
represented as `Option Int` with `none` for `NaN`. -/
structure BuildSizes where
  mainBundleName : String
  mainBundleSize : Nat
  mainBundleSizeGzip : Nat
  mainBundleSizeBrotli : Nat
  buildSize : Nat
  buildSizeOnDisk : Option Int
  buildFileCount : Nat
  deriving Repr, DecidableEq

/-- The process environment `getBuildSizes` runs in: the working directory
(`process.cwd()`), whether `process.platform === "win32"`, the gzip and
brotli compression sizers (`getFileSizeGzip`/`getFileSizeBrotli`, modelled
as total functions from a file path to the compressed byte length), and the
shell (`execBash`, a function from the command string to its result). -/
structure Env where
  cwd : String
  win32 : Bool
  gzipSize : String → Nat
  brotliSize : String → Nat
  exec : String → ExecResult

/-- Embeds `getBuildSizes` (src/index.js lines 152-208) with its effects
explicit: resolve the build path against the working directory, catalogue
the files (`getFilesAt`; a failed `readdir` already exits there), filter by
bundle type, select the main bundle by the source's `reduce`, size it with
the compression sizers when present, sum the file sizes, and probe the
on-disk size with `du` unless on Windows (`NaN` there).  A `du` failure
rejects, which the function's own `catch` turns into a `help` exit. -/
def getBuildSizes (env : Env) (root : FsDir) (buildPath : String)
    (bundleFileType : String := "js") : Outcome BuildSizes :=
  let build := resolveChild env.cwd buildPath
  match getFilesAt root build with
  | .thrown err => .thrown err
  | .exited stderr code => .exited stderr code
  | .ok buildFiles =>
    let filteredBuildFiles := filterFilesByType buildFiles bundleFileType
    let mainBundleFile := selectMax filteredBuildFiles
    let mainBundleSize := match mainBundleFile with
      | some f => f.size
      | none => 0
    let mainBundleName := match mainBundleFile with
      | some f => f.name
      | none => "Not found"
    let mainBundleSizeGzip := match mainBundleFile with
      | some f => env.gzipSize f.path
      | none => 0
    let mainBundleSizeBrotli := match mainBundleFile with
      | some f => env.brotliSize f.path
      | none => 0
    let buildSize := buildFiles.foldl (fun count file => count + file.size) 0
    let buildSizeOnDisk : Outcome (Option Int) :=
      if env.win32 then .ok none
      else match env.exec (buildDuCommand build) with
        | .success stdout => .ok (jsNumber stdout)
        | .failure err => .thrown err
    match buildSizeOnDisk with
    | .exited stderr code => .exited stderr code
    | .thrown err =>
        help [err, "\n\nOccurred while getting build sizes.",
          "Double check the inputs:", "\n    build path:",
          resolveChild env.cwd buildPath, "\n    bundle filetype:",
          bundleFileType]
    | .ok onDisk =>
        .ok { mainBundleName := mainBundleName
              mainBundleSize := mainBundleSize
              mainBundleSizeGzip := mainBundleSizeGzip
              mainBundleSizeBrotli := mainBundleSizeBrotli
              buildSize := buildSize
              buildSizeOnDisk := onDisk
              buildFileCount := buildFiles.length }

/-- Renders a report field value the way JavaScript interpolates it into
the CSV row: numbers print as decimal digits and `NaN` prints as `"NaN"`. -/
def showJsNumber : Option Int → String
  | some i => toString i
  | none => "NaN"

/-- `Object.entries(buildSizes)` (src/index.js line 242) in the insertion
order of the object literal returned by `getBuildSizes`: key/value pairs
with values rendered as strings. -/
def buildSizesEntries (b : BuildSizes) : List (String × String) :=
  [("mainBundleName", b.mainBundleName),
   ("mainBundleSize", toString b.mainBundleSize),
   ("mainBundleSizeGzip", toString b.mainBundleSizeGzip),
   ("mainBundleSizeBrotli", toString b.mainBundleSizeBrotli),
   ("buildSize", toString b.buildSize),
   ("buildSizeOnDisk", showJsNumber b.buildSizeOnDisk),
   ("buildFileCount", toString b.buildFileCount)]

/-- Embeds the CSV header construction (src/index.js lines 239-248):
`[version ? "Version," : "", "Timestamp"]`, then one entry per report key,
then `"(File sizes in bytes)"`, joined with `","` and terminated by a
newline.  (Note the source's first element already carries its own comma
when a version is present.) -/
def headerString (version : String) (b : BuildSizes) : String :=
  String.intercalate ","
    ((if version = "" then "" else "Version,") :: "Timestamp"
      :: ((buildSizesEntries b).map Prod.fst ++ ["(File sizes in bytes)"]))
    ++ "\n"

/-- Embeds the CSV data-row construction (src/index.js lines 240-249):
`[version ? version + "," : "", timestamp]`, then one value per report key,
joined with `","` and terminated by a newline. -/
def rowString (version timestamp : String) (b : BuildSizes) : String :=
  String.intercalate ","
    ((if version = "" then "" else version ++ ",") :: timestamp
      :: (buildSizesEntries b).map Prod.snd)
    ++ "\n"

/-- State of the CSV output file: absent, present with the given content,
or failing header creation with an error other than `EEXIST` (for example
an unwritable parent directory). -/
inductive FsFile where
  | absent
  | present (content : String)
  | unwritable (err : String)
  deriving Repr

/-- Embeds `saveBuildSizes` (src/index.js lines 218-270) acting on the
output-file state.  `version` models the string read from `package.json`
(empty when absent) and `timestamp` the formatted `Date.now()`; both are
call-time inputs.  `writeFile(outfile, header, { flag: "wx" })` creates the
file with the header only when it does not exist; when it already exists
the `EEXIST` rejection is swallowed; any other creation failure reaches
`help`, which exits before the append.  Finally `appendFile` appends the
row to whatever content is there. -/
def saveBuildSizes (version timestamp : String) (b : BuildSizes)
    (outfile : FsFile) : Outcome FsFile :=
  match outfile with
  | .absent => .ok (.present (headerString version b ++ rowString version timestamp b))
  | .present content => .ok (.present (content ++ rowString version timestamp b))
  | .unwritable err =>
      help [err, "\n\nOccurred while saving build sizes.",
        "Double check the output path:\n   "]

/-- The total transition `saveBuildSizes` induces on an output file that is
not failing (the `.unwritable` state is left unchanged, standing for the
aborted run). -/
def saveStep (version timestamp : String) (b : BuildSizes) : FsFile → FsFile
  | .absent => .present (headerString version b ++ rowString version timestamp b)
  | .present content => .present (content ++ rowString version timestamp b)
  | .unwritable err => .unwritable err

/-- Run `saveBuildSizes` once per timestamp in the list (left to right),
starting from the given file state. -/
def saveAll (version : String) (b : BuildSizes) : List String → FsFile → FsFile
  | [], f => f
  | ts :: rest, f => saveAll version b rest (saveStep version ts b f)

/-- Newlines in a string; each header or data line is terminated by one. -/
def countNewlines (s : String) : Nat := s.toList.count '\n'

/-! ## Helper lemmas -/

theorem foldl_add_size (l : List JsFile) (a : Nat) :
    List.foldl (fun count file => count + file.size) a l
      = a + (l.map JsFile.size).sum := by
  induction l generalizing a with
  | nil => simp
  | cons f fs ih => simp [List.foldl_cons, ih, Nat.add_assoc]

mutual
theorem entryFiles_length (d : String) (e : Entry) :
    (entryFiles d e).length = countEntry e := by
  cases e with
  | file name size => rfl
  | dir name entries => exact getFiles_length (resolveChild d name) entries
theorem getFiles_length (d : String) (es : EntryList) :
    (getFiles d es).length = countFiles es := by
  cases es with
  | nil => rfl
  | cons item rest =>
      simp [getFiles, countFiles, entryFiles_length d item, getFiles_length d rest]
end

mutual
theorem entryFiles_sum (d : String) (e : Entry) :
    ((entryFiles d e).map JsFile.size).sum = sumEntry e := by
  cases e with
  | file name size => simp [entryFiles, sumEntry]
  | dir name entries => exact getFiles_sum (resolveChild d name) entries
theorem getFiles_sum (d : String) (es : EntryList) :
    ((getFiles d es).map JsFile.size).sum = sumSizes es := by
  cases es with
  | nil => rfl
  | cons item rest =>
      simp [getFiles, sumSizes, entryFiles_sum d item, getFiles_sum d rest]
end

/-- The selected element is the LAST one attaining the maximum size: the
list splits around it with everything before of no larger size and
everything after of strictly smaller size. -/
def IsLastMax (l : List JsFile) (m : JsFile) : Prop :=
  ∃ l₁ l₂, l = l₁ ++ m :: l₂
    ∧ (∀ x ∈ l₁, x.size ≤ m.size)
    ∧ (∀ x ∈ l₂, x.size < m.size)

/-- The selection rule the spec describes: the FIRST element attaining the
maximum size — everything before it is strictly smaller, everything after
no larger. -/
def IsFirstMax (l : List JsFile) (m : JsFile) : Prop :=
  ∃ l₁ l₂, l = l₁ ++ m :: l₂
    ∧ (∀ x ∈ l₁, x.size < m.size)
    ∧ (∀ x ∈ l₂, x.size ≤ m.size)

theorem foldl_max_isLastMax (fs : List JsFile) : ∀ f : JsFile,
    IsLastMax (f :: fs)
      (fs.foldl (fun max file => if max.size > file.size then max else file) f) := by
  induction fs with
  | nil => exact fun f => ⟨[], [], rfl, by simp, by simp⟩
  | cons g gs ih =>
      intro f
      rw [List.foldl_cons]
      obtain ⟨l₁, l₂, heq, hle, hlt⟩ := ih (if f.size > g.size then f else g)
      cases l₁ with
      | nil =>
          rw [List.nil_append] at heq
          injection heq with h1 h2
          by_cases hc : f.size > g.size
          · rw [if_pos hc] at h1 hlt ⊢
            rw [← h1] at hlt ⊢
            refine ⟨[], g :: gs, rfl, by simp, ?_⟩
            intro x hx
            rcases List.mem_cons.mp hx with rfl | hx
            · exact hc
            · exact hlt x (h2 ▸ hx)
          · rw [if_neg hc] at h1 hlt ⊢
            rw [← h1] at hlt ⊢
            refine ⟨[f], gs, rfl, ?_, ?_⟩
            · intro x hx
              rcases List.mem_singleton.mp hx with rfl
              omega
            · intro x hx
              exact hlt x (h2 ▸ hx)
      | cons a l₁' =>
          rw [List.cons_append] at heq
          injection heq with h1 h2
          refine ⟨f :: g :: l₁', l₂, ?_, ?_, hlt⟩
          · conv_lhs => rw [h2]
            simp
          have hstep : (if f.size > g.size then f else g) ∈ a :: l₁' := by
            rw [h1]; exact List.mem_cons_self _ _
          have hsM := hle _ hstep
          have hfM : f.size ≤ (if f.size > g.size then f else g).size := by
            split <;> omega
          have hgM : g.size ≤ (if f.size > g.size then f else g).size := by
            split <;> omega
          intro x hx
          rcases List.mem_cons.mp hx with rfl | hx
          · omega
          rcases List.mem_cons.mp hx with rfl | hx
          · omega
          · exact hle x (List.mem_cons_of_mem _ hx)

theorem selectMax_isLastMax (f : JsFile) (fs : List JsFile) :
    ∃ m, selectMax (f :: fs) = some m ∧ IsLastMax (f :: fs) m :=
  ⟨_, rfl, foldl_max_isLastMax fs f⟩

theorem selectMax_mem {l : List JsFile} {m : JsFile}
    (h : selectMax l = some m) : m ∈ l := by
  cases l with
  | nil => cases h
  | cons f fs =>
      obtain ⟨m', hm', hlast⟩ := selectMax_isLastMax f fs
      rw [hm'] at h
      obtain rfl : m' = m := Option.some.inj h
      obtain ⟨l₁, l₂, heq, -, -⟩ := hlast
      rw [heq]
      exact List.mem_append.mpr (Or.inr (by simp))

/-- On the success path, the fields of the returned report are exactly the
source's expressions over the catalogued files. -/
theorem getBuildSizes_ok_fields (env : Env) (entries : EntryList)
    (buildPath t : String) (r : BuildSizes)
    (hok : getBuildSizes env (.present entries) buildPath t = .ok r) :
    r.mainBundleName
        = (match selectMax (filterFilesByType
              (getFiles (resolveChild env.cwd buildPath) entries) t) with
           | some f => f.name
           | none => "Not found")
      ∧ r.mainBundleSize
        = (match selectMax (filterFilesByType
              (getFiles (resolveChild env.cwd buildPath) entries) t) with
           | some f => f.size
           | none => 0)
      ∧ r.mainBundleSizeGzip
        = (match selectMax (filterFilesByType
              (getFiles (resolveChild env.cwd buildPath) entries) t) with
           | some f => env.gzipSize f.path
           | none => 0)
      ∧ r.mainBundleSizeBrotli
        = (match selectMax (filterFilesByType
              (getFiles (resolveChild env.cwd buildPath) entries) t) with
           | some f => env.brotliSize f.path
           | none => 0)
      ∧ r.buildSize
        = List.foldl (fun count file => count + file.size) 0
            (getFiles (resolveChild env.cwd buildPath) entries)
      ∧ r.buildFileCount
        = (getFiles (resolveChild env.cwd buildPath) entries).length := by
  simp only [getBuildSizes, getFilesAt] at hok
  split at hok
  · injection hok
  · exact absurd hok (by simp [help])
  · rename_i onDisk heq
    injection hok with hok
    subst hok
    exact ⟨rfl, rfl, rfl, rfl, rfl, rfl⟩

/-! ## Claims -/

/-- C3: the claim says `filterFilesByType` keeps exactly the records whose
name ends with a case-insensitive match of `"." ++ type`, so that a name
ending in the type's characters WITHOUT a preceding dot (`"myjs"` for
`"js"`) is excluded.  The source's regex `new RegExp("." + type + "$", "i")`
leaves the dot unescaped, so it matches any character there: the code
includes `"myjs"`, though it does not end with a literal `".js"`. -/
theorem C3_dotless_name_matches :
    filterFilesByType [⟨"myjs", "/build/myjs", 7⟩] "js"
        = [⟨"myjs", "/build/myjs", 7⟩]
      ∧ regexDotTypeTest "js" "myjs" = true
      ∧ endsWithDotType "js" "myjs" = false :=
  ⟨rfl, rfl, rfl⟩

/-- C9: `filterFilesByType` is idempotent, every record it returns passes
the type test, and no record failing the test is ever included. -/
theorem C9_filterFilesByType_idempotent (files : List JsFile) (type : String) :
    filterFilesByType (filterFilesByType files type) type
        = filterFilesByType files type
      ∧ (∀ f ∈ filterFilesByType files type, regexDotTypeTest type f.name = true)
      ∧ (∀ f, regexDotTypeTest type f.name = false
          → f ∉ filterFilesByType files type) := by
  refine ⟨?_, ?_, ?_⟩
  · unfold filterFilesByType
    rw [List.filter_filter]
    simp
  · intro f hf
    exact (List.mem_filter.mp hf).2
  · intro f hf hmem
    have h := (List.mem_filter.mp hmem).2
    rw [hf] at h
    cases h

theorem C9_witness :
    filterFilesByType (filterFilesByType
        [⟨"a.js", "/b/a.js", 1⟩, ⟨"b.css", "/b/b.css", 2⟩] "js") "js"
      = filterFilesByType [⟨"a.js", "/b/a.js", 1⟩, ⟨"b.css", "/b/b.css", 2⟩] "js" :=
  (C9_filterFilesByType_idempotent
    [⟨"a.js", "/b/a.js", 1⟩, ⟨"b.css", "/b/b.css", 2⟩] "js").1

/-- C4 counterexample: the claim says the reduction keeps the
FIRST-encountered maximum.  On two same-size candidates the source's
`reduce` (`max.size > file.size ? max : file`) replaces the accumulator on
ties, so it selects the SECOND file, which is not a first-encountered
maximum of the list. -/
theorem C4_first_max_counterexample :
    selectMax [⟨"a.js", "/build/a.js", 5⟩, ⟨"z.js", "/build/z.js", 5⟩]
        = some ⟨"z.js", "/build/z.js", 5⟩
      ∧ ¬ IsFirstMax [⟨"a.js", "/build/a.js", 5⟩, ⟨"z.js", "/build/z.js", 5⟩]
            ⟨"z.js", "/build/z.js", 5⟩ := by
  refine ⟨rfl, ?_⟩
  rintro ⟨l₁, l₂, heq, hlt, -⟩
  cases l₁ with
  | nil =>
      rw [List.nil_append] at heq
      injection heq with h1 h2
      exact absurd h1 (by decide)
  | cons b l₁' =>
      rw [List.cons_append] at heq
      injection heq with h1 h2
      cases l₁' with
      | nil =>
          rw [List.nil_append] at h2
          injection h2 with h3 h4
          have hb := hlt b (List.mem_singleton.mpr rfl)
          rw [← h1] at hb
          exact absurd hb (by decide)
      | cons c l₁'' =>
          rw [List.cons_append] at h2
          injection h2 with h3 h4
          have := congrArg List.length h4
          simp at this
          omega

/-- C4 amended: when at least one file matches the bundle type,
`getBuildSizes` selects the main bundle deterministically by keeping the
LAST-encountered maximum of the left-to-right reduction (everything before
the selected file is no larger, everything after strictly smaller), and the
report's name and size fields come from that file.  Repeated runs on the
same input select the same file since the selection is a pure function of
the candidate list. -/
theorem C4_last_max_selection (env : Env) (entries : EntryList)
    (buildPath bundleFileType : String) (r : BuildSizes)
    (hok : getBuildSizes env (.present entries) buildPath bundleFileType = .ok r)
    (hne : filterFilesByType (getFiles (resolveChild env.cwd buildPath) entries)
        bundleFileType ≠ []) :
    ∃ m, selectMax (filterFilesByType
          (getFiles (resolveChild env.cwd buildPath) entries) bundleFileType)
        = some m
      ∧ IsLastMax (filterFilesByType
          (getFiles (resolveChild env.cwd buildPath) entries) bundleFileType) m
      ∧ r.mainBundleName = m.name ∧ r.mainBundleSize = m.size := by
  obtain ⟨hname, hsize, -, -, -, -⟩ :=
    getBuildSizes_ok_fields env entries buildPath bundleFileType r hok
  cases hcand : filterFilesByType
      (getFiles (resolveChild env.cwd buildPath) entries) bundleFileType with
  | nil => exact absurd hcand hne
  | cons f fs =>
      obtain ⟨m, hm, hlast⟩ := selectMax_isLastMax f fs
      refine ⟨m, hm, hlast, ?_, ?_⟩
      · rw [hname, hcand, hm]
      · rw [hsize, hcand, hm]

theorem C4_witness :
    filterFilesByType (getFiles (resolveChild "/cwd" "build")
        (.cons (.file "a.js" 5) (.cons (.file "z.js" 5) .nil))) "js" ≠ []
      ∧ ∃ m, selectMax (filterFilesByType (getFiles (resolveChild "/cwd" "build")
            (.cons (.file "a.js" 5) (.cons (.file "z.js" 5) .nil))) "js") = some m
          ∧ IsLastMax (filterFilesByType (getFiles (resolveChild "/cwd" "build")
              (.cons (.file "a.js" 5) (.cons (.file "z.js" 5) .nil))) "js") m
          ∧ ({ mainBundleName := "z.js", mainBundleSize := 5,
               mainBundleSizeGzip := 3, mainBundleSizeBrotli := 2,
               buildSize := 10, buildSizeOnDisk := some 10,
               buildFileCount := 2 } : BuildSizes).mainBundleName = m.name
          ∧ ({ mainBundleName := "z.js", mainBundleSize := 5,
               mainBundleSizeGzip := 3, mainBundleSizeBrotli := 2,
               buildSize := 10, buildSizeOnDisk := some 10,
               buildFileCount := 2 } : BuildSizes).mainBundleSize = m.size :=
  ⟨by decide,
   C4_last_max_selection
     ⟨"/cwd", false, fun _ => 3, fun _ => 2, fun _ => .success "10"⟩
     (.cons (.file "a.js" 5) (.cons (.file "z.js" 5) .nil))
     "build" "js" _ rfl (by decide)⟩

/-- C1: for every directory tree accepted by `getBuildSizes`, the report's
`buildFileCount` is the number of regular files across all nesting levels
and `buildSize` is the exact sum of their byte sizes; the summing fold is
invariant under any reordering of the traversal's file list. -/
theorem C1_count_and_sum (env : Env) (entries : EntryList)
    (buildPath t : String) (r : BuildSizes)
    (hok : getBuildSizes env (.present entries) buildPath t = .ok r) :
    r.buildFileCount = countFiles entries
      ∧ r.buildSize = sumSizes entries
      ∧ ∀ (l l' : List JsFile), l.Perm l' →
          List.foldl (fun count file => count + file.size) 0 l
            = List.foldl (fun count file => count + file.size) 0 l' := by
  obtain ⟨-, -, -, -, hsum, hcount⟩ :=
    getBuildSizes_ok_fields env entries buildPath t r hok
  refine ⟨?_, ?_, ?_⟩
  · rw [hcount, getFiles_length]
  · rw [hsum, foldl_add_size, Nat.zero_add, getFiles_sum]
  · intro l l' hperm
    rw [foldl_add_size, foldl_add_size, Nat.zero_add, Nat.zero_add]
    exact (hperm.map JsFile.size).sum_eq

theorem C1_witness :
    (⟨"b.JS", 7, 9, 8, 15, some 42, 3⟩ : BuildSizes).buildFileCount
        = countFiles (.cons (.file "a.js" 5)
            (.cons (.dir "sub" (.cons (.file "b.JS" 7)
              (.cons (.file "c.css" 3) .nil))) .nil))
      ∧ (⟨"b.JS", 7, 9, 8, 15, some 42, 3⟩ : BuildSizes).buildSize
        = sumSizes (.cons (.file "a.js" 5)
            (.cons (.dir "sub" (.cons (.file "b.JS" 7)
              (.cons (.file "c.css" 3) .nil))) .nil)) := by
  have h := C1_count_and_sum
    ⟨"/cwd", false, fun _ => 9, fun _ => 8, fun _ => .success " 42\n"⟩
    (.cons (.file "a.js" 5)
      (.cons (.dir "sub" (.cons (.file "b.JS" 7)
        (.cons (.file "c.css" 3) .nil))) .nil))
    "b" "js" ⟨"b.JS", 7, 9, 8, 15, some 42, 3⟩ rfl
  exact ⟨h.1, h.2.1⟩

/-- C8: every successful report has `buildFileCount` equal to the number of
`JsFile` records of the same traversal, and when the build is non-empty the
selected main bundle's size is at most `buildSize` (the selected file is
one of the catalogued files, whose sizes sum to `buildSize`). -/
theorem C8_report_invariants (env : Env) (entries : EntryList)
    (buildPath t : String) (r : BuildSizes)
    (hok : getBuildSizes env (.present entries) buildPath t = .ok r) :
    r.buildFileCount = (getFiles (resolveChild env.cwd buildPath) entries).length
      ∧ (0 < r.buildFileCount → r.mainBundleSize ≤ r.buildSize) := by
  obtain ⟨-, hsize, -, -, hsum, hcount⟩ :=
    getBuildSizes_ok_fields env entries buildPath t r hok
  refine ⟨hcount, fun _ => ?_⟩
  rw [hsize, hsum, foldl_add_size, Nat.zero_add]
  cases hsel : selectMax (filterFilesByType
      (getFiles (resolveChild env.cwd buildPath) entries) t) with
  | none => exact Nat.zero_le _
  | some m =>
      have hmem : m ∈ getFiles (resolveChild env.cwd buildPath) entries :=
        List.mem_of_mem_filter (selectMax_mem hsel)
      exact List.single_le_sum (fun x _ => Nat.zero_le x) _
        (List.mem_map_of_mem JsFile.size hmem)

theorem C8_witness :
    0 < (⟨"b.JS", 7, 9, 8, 15, some 42, 3⟩ : BuildSizes).buildFileCount
      ∧ (⟨"b.JS", 7, 9, 8, 15, some 42, 3⟩ : BuildSizes).buildFileCount
        = (getFiles (resolveChild "/cwd" "b")
            (.cons (.file "a.js" 5)
              (.cons (.dir "sub" (.cons (.file "b.JS" 7)
                (.cons (.file "c.css" 3) .nil))) .nil))).length
      ∧ (⟨"b.JS", 7, 9, 8, 15, some 42, 3⟩ : BuildSizes).mainBundleSize
        ≤ (⟨"b.JS", 7, 9, 8, 15, some 42, 3⟩ : BuildSizes).buildSize := by
  have h := C8_report_invariants
    ⟨"/cwd", false, fun _ => 9, fun _ => 8, fun _ => .success " 42\n"⟩
    (.cons (.file "a.js" 5)
      (.cons (.dir "sub" (.cons (.file "b.JS" 7)
        (.cons (.file "c.css" 3) .nil))) .nil))
    "b" "js" ⟨"b.JS", 7, 9, 8, 15, some 42, 3⟩ rfl
  exact ⟨by decide, h.1, h.2 (by decide)⟩

/-- C2: when no catalogued file matches the requested bundle type, the
report's `mainBundleName` is the `"Not found"` sentinel and the three
main-bundle size fields are exactly 0; neither compression sizer is
invoked — the result does not depend on the `gzipSize`/`brotliSize`
functions at all. -/
theorem C2_no_match_sentinel (env : Env) (entries : EntryList)
    (buildPath t : String) (r : BuildSizes)
    (hempty : filterFilesByType
        (getFiles (resolveChild env.cwd buildPath) entries) t = [])
    (hok : getBuildSizes env (.present entries) buildPath t = .ok r) :
    r.mainBundleName = "Not found"
      ∧ r.mainBundleSize = 0
      ∧ r.mainBundleSizeGzip = 0
      ∧ r.mainBundleSizeBrotli = 0
      ∧ ∀ g bz : String → Nat,
          getBuildSizes { env with gzipSize := g, brotliSize := bz }
              (.present entries) buildPath t
            = getBuildSizes env (.present entries) buildPath t := by
  obtain ⟨hname, hsize, hgz, hbr, -, -⟩ :=
    getBuildSizes_ok_fields env entries buildPath t r hok
  rw [hempty] at hname hsize hgz hbr
  refine ⟨hname, hsize, hgz, hbr, ?_⟩
  intro g bz
  simp only [getBuildSizes, getFilesAt]
  rw [hempty]
  rfl

theorem C2_witness :
    (⟨"Not found", 0, 0, 0, 3, some 4, 1⟩ : BuildSizes).mainBundleName = "Not found"
      ∧ (⟨"Not found", 0, 0, 0, 3, some 4, 1⟩ : BuildSizes).mainBundleSize = 0
      ∧ (⟨"Not found", 0, 0, 0, 3, some 4, 1⟩ : BuildSizes).mainBundleSizeGzip = 0
      ∧ (⟨"Not found", 0, 0, 0, 3, some 4, 1⟩ : BuildSizes).mainBundleSizeBrotli = 0
      ∧ getBuildSizes
          { cwd := "/cwd", win32 := false, gzipSize := fun _ => 99,
            brotliSize := fun _ => 77, exec := fun _ => .success "4" }
          (.present (.cons (.file "style.css" 3) .nil)) "b" "js"
        = getBuildSizes
          { cwd := "/cwd", win32 := false, gzipSize := fun _ => 1,
            brotliSize := fun _ => 2, exec := fun _ => .success "4" }
          (.present (.cons (.file "style.css" 3) .nil)) "b" "js" := by
  have h := C2_no_match_sentinel
    ⟨"/cwd", false, fun _ => 1, fun _ => 2, fun _ => .success "4"⟩
    (.cons (.file "style.css" 3) .nil) "b" "js"
    ⟨"Not found", 0, 0, 0, 3, some 4, 1⟩ rfl rfl
  exact ⟨h.1, h.2.1, h.2.2.1, h.2.2.2.1,
    h.2.2.2.2 (fun _ => 99) (fun _ => 77)⟩

/-- C6 counterexample: with the build path missing, the core itself prints
to stderr and terminates the process with exit code 1 (the `.exited`
outcome), instead of propagating an error to the caller (which would be the
`.thrown` outcome) — contradicting the claim that the core never prints or
exits and that the error propagates. -/
theorem C6_core_exits_counterexample :
    getBuildSizes ⟨"/cwd", false, fun _ => 0, fun _ => 0, fun _ => .success "1"⟩
        .enoent "missing" "js"
      = .exited ["Error: Could not find build at specified path:\n   ",
          "/cwd/missing", helpHint] 1 := rfl

/-- C6 amended: when the root build path does not exist, `getFiles`'s catch
handler calls `help`, which prints a message identifying the resolved path
to stderr and terminates the process with exit code 1; no error reaches the
caller of `getBuildSizes`. -/
theorem C6_enoent_help_exit (env : Env) (buildPath t : String) :
    getBuildSizes env .enoent buildPath t
      = .exited ["Error: Could not find build at specified path:\n   ",
          resolveChild env.cwd buildPath, helpHint] 1 := rfl

/-- C7 amended: on Windows the on-disk probe stores the `NaN` sentinel in a
successful report without failing.  On other platforms `getBuildSizes` runs
`du -sb <build> | cut -f1` through the shell; when the subprocess succeeds
its trimmed output is coerced with `Number`, and the result — `NaN`
included, when the output does not parse — is stored in a successful
report (a parse failure is NOT an error).  When the subprocess exits
non-zero the rejection is caught by `getBuildSizes`'s own handler, which
prints to stderr and terminates the process with exit code 1 (no `IOError`
reaches the caller). -/
theorem C7_disk_usage_probe (env : Env) (entries : EntryList)
    (buildPath t : String) :
    (env.win32 = true →
        ∃ r, getBuildSizes env (.present entries) buildPath t = .ok r
          ∧ r.buildSizeOnDisk = none)
      ∧ (∀ out, env.win32 = false
          → env.exec (buildDuCommand (resolveChild env.cwd buildPath))
              = .success out
          → ∃ r, getBuildSizes env (.present entries) buildPath t = .ok r
              ∧ r.buildSizeOnDisk = jsNumber out)
      ∧ (∀ err, env.win32 = false
          → env.exec (buildDuCommand (resolveChild env.cwd buildPath))
              = .failure err
          → getBuildSizes env (.present entries) buildPath t
            = .exited [err, "\n\nOccurred while getting build sizes.",
                "Double check the inputs:", "\n    build path:",
                resolveChild env.cwd buildPath, "\n    bundle filetype:", t,
                helpHint] 1) := by
  refine ⟨?_, ?_, ?_⟩
  · intro hw
    simp only [getBuildSizes, getFilesAt, hw, if_true]
    exact ⟨_, rfl, rfl⟩
  · intro out hw hexec
    simp only [getBuildSizes, getFilesAt, hw, Bool.false_eq_true, if_false,
      hexec]
    exact ⟨_, rfl, rfl⟩
  · intro err hw hexec
    simp only [getBuildSizes, getFilesAt, hw, Bool.false_eq_true, if_false,
      hexec, help]
    rfl

theorem C7_witness :
    (∃ r, getBuildSizes
          ⟨"/cwd", true, fun _ => 0, fun _ => 0, fun _ => .failure "no du"⟩
          (.present .nil) "b" "js" = .ok r
        ∧ r.buildSizeOnDisk = none)
      ∧ (∃ r, getBuildSizes
            ⟨"/cwd", false, fun _ => 0, fun _ => 0,
              fun _ => .success "du: cannot access"⟩
            (.present .nil) "b" "js" = .ok r
          ∧ r.buildSizeOnDisk = jsNumber "du: cannot access")
      ∧ getBuildSizes
          ⟨"/cwd", false, fun _ => 0, fun _ => 0, fun _ => .failure "boom"⟩
          (.present .nil) "b" "js"
        = .exited ["boom", "\n\nOccurred while getting build sizes.",
            "Double check the inputs:", "\n    build path:", "/cwd/b",
            "\n    bundle filetype:", "js", helpHint] 1 :=
  ⟨(C7_disk_usage_probe
      ⟨"/cwd", true, fun _ => 0, fun _ => 0, fun _ => .failure "no du"⟩
      .nil "b" "js").1 rfl,
   (C7_disk_usage_probe
      ⟨"/cwd", false, fun _ => 0, fun _ => 0,
        fun _ => .success "du: cannot access"⟩
      .nil "b" "js").2.1 "du: cannot access" rfl rfl,
   (C7_disk_usage_probe
      ⟨"/cwd", false, fun _ => 0, fun _ => 0, fun _ => .failure "boom"⟩
      .nil "b" "js").2.2 "boom" rfl rfl⟩

/-- C7 counterexample: a `du` output that does not parse as a number
(`"du: cannot access"`) still produces a SUCCESSFUL report that silently
stores the `NaN` sentinel — refuting the claim that a parse failure is an
`IOError` rather than a silently returned value. -/
theorem C7_parse_failure_counterexample :
    getBuildSizes
        ⟨"/cwd", false, fun _ => 0, fun _ => 0,
          fun _ => .success "du: cannot access"⟩
        (.present .nil) "b" "js"
      = .ok ⟨"Not found", 0, 0, 0, 0, none, 0⟩ := rfl

/-- Split a character list at every occurrence of `c` (the separator is
dropped; empty segments are kept). -/
def splitOnCharAux (c : Char) : List Char → List Char → List (List Char)
  | [], acc => [acc.reverse]
  | x :: xs, acc =>
      if x = c then acc.reverse :: splitOnCharAux c xs []
      else splitOnCharAux c xs (x :: acc)

/-- Split a character list at every occurrence of `c`. -/
def splitOnChar (c : Char) (l : List Char) : List (List Char) :=
  splitOnCharAux c l []

/-- A POSIX-shell reading of a command string, restricted to what `exec`'s
`/bin/sh -c` does with the unquoted command here: the first pipeline stage
is the text before the first `|`, and its argument words are the maximal
space-free segments.  No quoting or escaping is interpreted, because the
interpolated command contains none. -/
def shellFields (cmd : String) : List String :=
  ((splitOnChar ' ' ((splitOnChar '|' cmd.toList).headD [])).filter
    (fun w => decide (w ≠ []))).map (fun w => String.mk w)

/-- The operand words the shell hands to `du` after the literal words
`du` and `-sb`. -/
def duOperands (cmd : String) : List String := (shellFields cmd).drop 2

theorem splitOnCharAux_not_mem (c : Char) (l : List Char) :
    ∀ (acc w : List Char), c ∉ acc → w ∈ splitOnCharAux c l acc → c ∉ w := by
  induction l with
  | nil =>
      intro acc w hacc hw
      rw [splitOnCharAux, List.mem_singleton] at hw
      subst hw
      simpa using hacc
  | cons x xs ih =>
      intro acc w hacc hw
      rw [splitOnCharAux] at hw
      by_cases hx : x = c
      · rw [if_pos hx] at hw
        rcases List.mem_cons.mp hw with rfl | hw
        · simpa using hacc
        · exact ih [] w (by simp) hw
      · rw [if_neg hx] at hw
        refine ih (x :: acc) w ?_ hw
        intro hmem
        rcases List.mem_cons.mp hmem with heq | hmem'
        · exact hx heq.symm
        · exact hacc hmem'

theorem splitOnChar_not_mem {c : Char} {l w : List Char}
    (hw : w ∈ splitOnChar c l) : c ∉ w :=
  splitOnCharAux_not_mem c l [] w (by simp) hw

/-- C10: the `du` invocation interpolates the resolved build path directly
into the shell command with no quoting — the command string is exactly
`"du -sb " ++ path ++ " | cut -f1"`, and that string is the only one
`getBuildSizes` hands to the shell — so whenever the path contains a
space, the word list the shell passes to `du` cannot be the single intended
directory operand. -/
theorem C10_du_command_no_quoting (p : String) (hsp : ' ' ∈ p.toList) :
    buildDuCommand p = "du -sb " ++ p ++ " | cut -f1"
      ∧ duOperands (buildDuCommand p) ≠ [p]
      ∧ ∀ (cwd : String) (w : Bool) (g bz : String → Nat)
          (e₁ e₂ : String → ExecResult) (entries : EntryList) (t : String),
          e₁ (buildDuCommand (resolveChild cwd p))
              = e₂ (buildDuCommand (resolveChild cwd p))
          → getBuildSizes ⟨cwd, w, g, bz, e₁⟩ (.present entries) p t
            = getBuildSizes ⟨cwd, w, g, bz, e₂⟩ (.present entries) p t := by
  refine ⟨rfl, ?_, ?_⟩
  case refine_2 =>
    intro cwd w g bz e₁ e₂ entries t hagree
    simp only [getBuildSizes, getFilesAt]
    rw [hagree]
  intro hco
  have hp : p ∈ duOperands (buildDuCommand p) := by
    rw [hco]
    exact List.mem_singleton.mpr rfl
  have hp' : p ∈ shellFields (buildDuCommand p) :=
    List.mem_of_mem_drop hp
  obtain ⟨w, hw, hwp⟩ := List.mem_map.mp hp'
  have hmem : w ∈ splitOnChar ' ' ((splitOnChar '|'
      (buildDuCommand p).toList).headD []) := (List.mem_filter.mp hw).1
  have hnsp : ' ' ∉ w := splitOnChar_not_mem hmem
  apply hnsp
  have : (String.mk w).toList = w := rfl
  rw [← hwp] at hsp
  exact this ▸ hsp

theorem C10_witness :
    buildDuCommand "/cwd/my build"
        = "du -sb " ++ "/cwd/my build" ++ " | cut -f1"
      ∧ duOperands (buildDuCommand "/cwd/my build") ≠ ["/cwd/my build"] := by
  have h := C10_du_command_no_quoting "/cwd/my build" (by decide)
  exact ⟨h.1, h.2.1⟩

/-- Concatenation of a list of strings (the rows appended over time). -/
def concatStrings : List String → String
  | [] => ""
  | s :: rest => s ++ concatStrings rest

theorem countNewlines_append (s t : String) :
    countNewlines (s ++ t) = countNewlines s + countNewlines t := by
  have h : (s ++ t).toList = s.toList ++ t.toList := rfl
  simp [countNewlines, h]

theorem string_append_empty (s : String) : s ++ "" = s :=
  congrArg String.mk (List.append_nil s.data)

theorem string_append_assoc (a b c : String) : a ++ b ++ c = a ++ (b ++ c) :=
  congrArg String.mk (List.append_assoc a.data b.data c.data)

theorem saveAll_present (version : String) (b : BuildSizes)
    (tss : List String) : ∀ c : String,
    saveAll version b tss (.present c)
      = .present (c ++ concatStrings (tss.map (fun t => rowString version t b))) := by
  induction tss with
  | nil =>
      intro c
      rw [saveAll, List.map_nil, concatStrings, string_append_empty]
  | cons t rest ih =>
      intro c
      rw [saveAll, saveStep, ih (c ++ rowString version t b), List.map_cons,
        concatStrings, string_append_assoc]

theorem headerString_newlines (version : String) (b : BuildSizes) :
    countNewlines (headerString version b) = 1 := by
  by_cases h : version = ""
  · subst h
    rfl
  · unfold headerString
    rw [if_neg h]
    rfl

/-- C5: `saveBuildSizes` writes the header through an exclusive create that
takes effect only when the output file does not yet exist; an
already-exists failure of that write is swallowed and the data row is
appended to the existing content (never truncating it); any other
header-write failure reaches `help`, which exits before the append; and N
calls against the same (initially absent) path leave a file holding the
header once followed by the N data rows — one header line plus N data
lines when each row is a single newline-terminated line. -/
theorem C5_csv_append_semantics (version ts err c : String) (b : BuildSizes)
    (timestamps : List String) :
    saveBuildSizes version ts b .absent
        = .ok (.present (headerString version b ++ rowString version ts b))
      ∧ saveBuildSizes version ts b (.present c)
        = .ok (.present (c ++ rowString version ts b))
      ∧ saveBuildSizes version ts b (.unwritable err)
        = .exited [err, "\n\nOccurred while saving build sizes.",
            "Double check the output path:\n   ", helpHint] 1
      ∧ saveAll version b timestamps .absent
        = (match timestamps with
           | [] => .absent
           | t :: rest =>
              .present (headerString version b
                ++ concatStrings ((t :: rest).map (fun u => rowString version u b))))
      ∧ countNewlines (headerString version b) = 1
      ∧ ((∀ t ∈ timestamps, countNewlines (rowString version t b) = 1) →
          countNewlines (headerString version b
              ++ concatStrings (timestamps.map (fun u => rowString version u b)))
            = 1 + timestamps.length) := by
  refine ⟨rfl, rfl, rfl, ?_, headerString_newlines version b, ?_⟩
  · cases timestamps with
    | nil => rfl
    | cons t rest =>
        rw [saveAll, saveStep, saveAll_present]
        simp only [List.map_cons, concatStrings]
        rw [string_append_assoc]
  · intro hrows
    rw [countNewlines_append, headerString_newlines]
    congr 1
    induction timestamps with
    | nil => rfl
    | cons t rest ih =>
        rw [List.map_cons, concatStrings, countNewlines_append,
          hrows t (List.mem_cons_self t rest), List.length_cons,
          ih (fun u hu => hrows u (List.mem_cons_of_mem t hu))]
        omega

theorem C5_witness :
    saveAll "1.2.3" ⟨"main.js", 4, 3, 2, 9, some 9, 2⟩ ["T1", "T2"] .absent
        = .present (headerString "1.2.3" ⟨"main.js", 4, 3, 2, 9, some 9, 2⟩
            ++ concatStrings (["T1", "T2"].map
                (fun u => rowString "1.2.3" u ⟨"main.js", 4, 3, 2, 9, some 9, 2⟩)))
      ∧ countNewlines (headerString "1.2.3" ⟨"main.js", 4, 3, 2, 9, some 9, 2⟩
            ++ concatStrings (["T1", "T2"].map
                (fun u => rowString "1.2.3" u ⟨"main.js", 4, 3, 2, 9, some 9, 2⟩)))
        = 1 + (["T1", "T2"] : List String).length := by
  have h := C5_csv_append_semantics "1.2.3" "T1" "e" "c"
    ⟨"main.js", 4, 3, 2, 9, some 9, 2⟩ ["T1", "T2"]
  exact ⟨h.2.2.2.1, h.2.2.2.2.2 (by decide)⟩
